import Mathlib

/-!
Verification development for the AudioProject-Female repository.

The definitions below are a shallow embedding of the Python sources:
`src/voice_selector.py` (language table parsing, language matching,
voice selection), `src/audio_generator.py` (per-entry WAV/OGG
generation with skip-existing logic), and the relevant slice of
`src/main.py` (the match / abort / per-language generation loop).

Modelling conventions:
* Python strings are Lean `String`s; `str.lower` / `str.upper` /
  `str.strip` are modelled at the character-list level via
  `Char.toLower` / `Char.toUpper` / `Char.isWhitespace` (the language
  codes and markers involved are ASCII, where these agree with Python).
* Python dicts are association lists in insertion order with
  last-write-wins updates; Python sets used only for membership tests
  are modelled directly by list membership.
* The filesystem is a pair of predicates (WAV present / OGG present)
  keyed by the translation entry key (for a fixed output directory the
  file path is determined by the key).  The remote bucket and the two
  opaque collaborators (speech synthesis, ffmpeg transcode) are boolean
  oracles keyed likewise; a successful synthesis or transcode creates
  the target file, a failing one does not.
* Invocations of the two collaborators are recorded in call traces so
  that statements of the form "the transcode collaborator is invoked"
  are expressible.
-/

/-- Model of Python `str.strip`: drop whitespace from both ends. -/
def py_strip (s : String) : String :=
  ⟨((s.toList.dropWhile Char.isWhitespace).reverse.dropWhile Char.isWhitespace).reverse⟩

/-- Model of the Python truthiness test `not text or not text.strip()`:
a string is blank iff every character is whitespace (including the
empty string). -/
def is_blank (text : String) : Bool :=
  text.toList.all Char.isWhitespace

/-- Substring test on character lists (Python `pat in s`). -/
def contains_sub : List Char → List Char → Bool
  | [], pat => pat.isEmpty
  | c :: t, pat => pat.isPrefixOf (c :: t) || contains_sub t pat

/-- Python substring containment `pat in s` for strings. -/
def str_contains (s pat : String) : Bool :=
  contains_sub s.toList pat.toList

/-- One record of the Google voice catalog
(`{name, language_codes, ssml_gender}` as read by `voice_selector.py`). -/
structure Voice where
  name : String
  language_codes : List String
  ssml_gender : String
deriving Repr, DecidableEq

/-- Comparison-only normalization used throughout
`find_matching_google_language`: `code.lower().replace('_', '-')`
(per-character: underscores become hyphens, letters are lowercased). -/
def normalize_code (s : String) : String :=
  ⟨s.toList.map (fun c => if c = '_' then '-' else c.toLower)⟩

/-- Python `str.split(sep)` on character lists (single-char separator). -/
def split_on_char (sep : Char) : List Char → List (List Char)
  | [] => [[]]
  | c :: cs =>
    let r := split_on_char sep cs
    if c = sep then [] :: r
    else
      match r with
      | [] => [[c]]
      | h :: t => (c :: h) :: t

/-- `convert_language_code` from `src/voice_selector.py`: convert an
in-game code from `ll_cc` to `ll-CC` when splitting on `_` yields
exactly two parts; otherwise return the code unchanged. -/
def convert_language_code (in_game_code : String) : String :=
  if in_game_code.toList.contains '_' then
    match split_on_char '_' in_game_code.toList with
    | [p0, p1] =>
        (⟨p0.map Char.toLower⟩ : String) ++ "-" ++ (⟨p1.map Char.toUpper⟩ : String)
    | _ => in_game_code
  else in_game_code

/-- All language codes offered across the catalog, in the iteration
order of the nested loops of `find_matching_google_language`. -/
def all_catalog_codes : List Voice → List String
  | [] => []
  | v :: rest => v.language_codes ++ all_catalog_codes rest

/-- The inner double loop of `find_matching_google_language`: return
the first catalog code (in iteration order) whose normalization equals
the target. -/
def find_original_code (target : String) (google_voices : List Voice) : Option String :=
  (all_catalog_codes google_voices).find? (fun lc => normalize_code lc == target)

/-- `find_matching_google_language` from `src/voice_selector.py`:
try the converted in-game code against the normalized catalog set, then
the ISO code; on a match return the original-cased catalog code found
by the inner loop; otherwise `none`. -/
def find_matching_google_language (in_game_code iso_code : String)
    (google_voices : List Voice) : Option String :=
  let google_lang_codes := (all_catalog_codes google_voices).map normalize_code
  let converted_code := normalize_code (convert_language_code in_game_code)
  if converted_code ∈ google_lang_codes then
    match find_original_code converted_code google_voices with
    | some lc => some lc
    | none =>
      -- unreachable fall-through kept from the source: continue to the ISO check
      let iso_lower := normalize_code iso_code
      if iso_lower ∈ google_lang_codes then find_original_code iso_lower google_voices
      else none
  else
    let iso_lower := normalize_code iso_code
    if iso_lower ∈ google_lang_codes then find_original_code iso_lower google_voices
    else none

/-- `check_existing_audio_directories` from `src/voice_selector.py`:
`dirs` is the list of directory names in the current directory; the
check succeeds iff some directory starts with `code ++ "-"` and
contains `-female-`. -/
def check_existing_audio_directories (google_language_code : String)
    (dirs : List String) : Bool :=
  dirs.any (fun item =>
    (google_language_code ++ "-").toList.isPrefixOf item.toList &&
      str_contains item "-female-")

/-- `get_voice_priority` from `src/voice_selector.py`:
Chirp3-HD > Chirp-HD > Neural2 > WaveNet > unmarked (Standard). -/
def get_voice_priority (voice : Voice) : Nat :=
  if str_contains voice.name "Chirp3-HD" then 1
  else if str_contains voice.name "Chirp-HD" then 2
  else if str_contains voice.name "Neural2" then 3
  else if str_contains voice.name "WaveNet" then 4
  else 5

/-- `select_voices_for_language` from `src/voice_selector.py`:
filter to voices listing the code, then to FEMALE voices, stable-sort
by priority (Python `list.sort` is stable; modelled by insertion sort)
and return the single first voice, or `[]` when no voice survives. -/
def select_voices_for_language (language_code : String)
    (google_voices : List Voice) : List (String × String) :=
  let matching_voices := google_voices.filter
    (fun v => v.language_codes.contains language_code)
  if matching_voices.isEmpty then []
  else
    let female_voices := matching_voices.filter (fun v => v.ssml_gender == "FEMALE")
    if female_voices.isEmpty then []
    else
      match List.insertionSort
          (fun a b => get_voice_priority a ≤ get_voice_priority b) female_voices with
      | [] => []
      | v :: _ => [(v.name, "female")]

/-- One value of the `language_voice_mapping` dict built by
`match_languages_to_voices`. -/
structure MatchInfo where
  in_game_code : String
  google_language_code : String
  iso_code : String
  voices : List (String × String)
deriving Repr, DecidableEq

/-- Loop body of `match_languages_to_voices` for one translation file
`(filename, in_game_code)`.  The existing-directory check is computed
(as in the source) but only printed there; it does not influence the
result. -/
def match_step (google_voices : List Voice)
    (language_mapping : List (String × String)) (dirs : List String)
    (acc : List (String × MatchInfo) × List String)
    (file_entry : String × String) :
    List (String × MatchInfo) × List String :=
  let mapping := acc.1
  let used_languages := acc.2
  let filename := file_entry.1
  let in_game_code := file_entry.2
  let iso_code := (language_mapping.lookup in_game_code).getD ""
  match find_matching_google_language in_game_code iso_code google_voices with
  | none => (mapping, used_languages)
  | some google_lang_code =>
    if google_lang_code ∈ used_languages then (mapping, used_languages)
    else
      let _voice_exists := check_existing_audio_directories google_lang_code dirs
      let selected_voices := select_voices_for_language google_lang_code google_voices
      if selected_voices.isEmpty then (mapping, used_languages)
      else
        (mapping ++ [(filename,
            ⟨in_game_code, google_lang_code, iso_code, selected_voices⟩)],
         used_languages ++ [google_lang_code])

/-- `match_languages_to_voices` from `src/voice_selector.py`, after
I/O: `google_voices` is the loaded catalog (empty on load failure),
`parsed_mapping` the result of `parse_minecraft_language_table`
(`none` on parse failure), `translation_files` the `(filename,
in_game_code)` pairs found in the translations directory, `dirs` the
current directory listing, and `used_languages` the caller-supplied
used set.  Returns the mapping together with the final used set. -/
def match_languages_to_voices (google_voices : List Voice)
    (parsed_mapping : Option (List (String × String)))
    (translation_files : List (String × String)) (dirs : List String)
    (used_languages : List String) :
    List (String × MatchInfo) × List String :=
  if google_voices.isEmpty then ([], used_languages)
  else
    match parsed_mapping with
    | none => ([], used_languages)
    | some language_mapping =>
      if language_mapping.isEmpty then ([], used_languages)
      else
        translation_files.foldl (match_step google_voices language_mapping dirs)
          ([], used_languages)

/-- The parsed HTML document as seen by
`parse_minecraft_language_table`: the wikitable, when present, holds an
optional `tbody` (the row container) of rows of cell texts. -/
structure HtmlTable where
  tbody : Option (List (List String))

/-- Python dict assignment `m[k] = v` on an insertion-ordered
association list: update in place when the key exists, append
otherwise. -/
def dict_insert (m : List (String × String)) (k v : String) :
    List (String × String) :=
  if m.any (fun p => p.1 == k) then
    m.map (fun p => if p.1 == k then (k, v) else p)
  else m ++ [(k, v)]

/-- `parse_minecraft_language_table` from `src/voice_selector.py`.
A missing wikitable raises (caught, returning `None`); a missing
`tbody` raises an `AttributeError` on `tbody.find_all` (also caught,
returning `None`).  Otherwise each row with more than five cells whose
stripped in-game and ISO cells are nonempty and not the placeholder
glyph contributes a mapping entry (last write wins). -/
def parse_minecraft_language_table (doc : Option HtmlTable) :
    Option (List (String × String)) :=
  match doc with
  | none => none
  | some table =>
    match table.tbody with
    | none => none
    | some rows =>
      some (rows.foldl (fun language_mapping cells =>
        if 5 < cells.length then
          let in_game_code := py_strip (cells.getD 4 "")
          let iso_code := py_strip (cells.getD 5 "")
          if !in_game_code.isEmpty && !iso_code.isEmpty &&
              in_game_code != "–" && iso_code != "–" then
            dict_insert language_mapping in_game_code iso_code
          else language_mapping
        else language_mapping) [])

/-- `GenerationStats` (`stats` dict of `generate_audio_for_language`). -/
structure Stats where
  wav_made : Nat
  wav_skipped : Nat
  ogg_made : Nat
  ogg_skipped : Nat
  wav_failed : Nat
  ogg_failed : Nat
  total_entries : Nat
deriving Repr, DecidableEq

/-- The all-zero statistics record. -/
def zero_stats : Stats := ⟨0, 0, 0, 0, 0, 0, 0⟩

/-- Componentwise addition of statistics. -/
def stats_add (s d : Stats) : Stats :=
  ⟨s.wav_made + d.wav_made, s.wav_skipped + d.wav_skipped,
   s.ogg_made + d.ogg_made, s.ogg_skipped + d.ogg_skipped,
   s.wav_failed + d.wav_failed, s.ogg_failed + d.ogg_failed,
   s.total_entries + d.total_entries⟩

/-- Environment of one `generate_audio_for_language` call: whether a
bucket manager was supplied, the `skip_existing` flag, the bucket
contents, and the outcomes of the two opaque collaborators (speech
synthesis and ffmpeg transcode), all keyed by entry key. -/
structure GenEnv where
  has_bucket : Bool
  skip_existing : Bool
  bucketWav : String → Bool
  bucketOgg : String → Bool
  synthOk : String → Bool
  transcodeOk : String → Bool

/-- Local filesystem state: which WAV / OGG targets exist, keyed by
entry key. -/
structure FS where
  wav : String → Bool
  ogg : String → Bool

/-- Create the WAV target for `key` (successful synthesis). -/
def fs_set_wav (fs : FS) (key : String) : FS :=
  { fs with wav := fun p => if p == key then true else fs.wav p }

/-- Create the OGG target for `key` (successful transcode). -/
def fs_set_ogg (fs : FS) (key : String) : FS :=
  { fs with ogg := fun p => if p == key then true else fs.ogg p }

/-- Result of processing one translation entry: new filesystem, the
statistics increments, and the keys for which synthesis / transcode
were invoked. -/
structure EntryResult where
  fs : FS
  delta : Stats
  synth_calls : List String
  transcode_calls : List String

/-- The `Convert to OGG` half of the loop body of
`generate_audio_for_language`: skip when the OGG exists (locally or in
the bucket), otherwise transcode only if the WAV exists on disk, else
count the OGG as failed. -/
def ogg_step (env : GenEnv) (fs : FS) (key : String)
    (ogg_exists_in_bucket : Bool) (delta : Stats)
    (synth_calls : List String) : EntryResult :=
  let local_ogg_exists := fs.ogg key
  let should_skip_ogg := env.skip_existing && (local_ogg_exists || ogg_exists_in_bucket)
  if should_skip_ogg then
    ⟨fs, { delta with ogg_skipped := delta.ogg_skipped + 1 }, synth_calls, []⟩
  else if fs.wav key then
    if env.transcodeOk key then
      ⟨fs_set_ogg fs key, { delta with ogg_made := delta.ogg_made + 1 },
        synth_calls, [key]⟩
    else
      ⟨fs, { delta with ogg_failed := delta.ogg_failed + 1 }, synth_calls, [key]⟩
  else
    ⟨fs, { delta with ogg_failed := delta.ogg_failed + 1 }, synth_calls, []⟩

/-- Loop body of `generate_audio_for_language` for one `(key, text)`
entry: blank text is skipped entirely; otherwise the WAV step runs
(skip / make / fail), and a failed WAV `continue`s past the OGG step. -/
def process_entry (env : GenEnv) (fs : FS) (key text : String) : EntryResult :=
  if is_blank text then ⟨fs, zero_stats, [], []⟩
  else
    let wav_exists_in_bucket := env.has_bucket && env.skip_existing && env.bucketWav key
    let ogg_exists_in_bucket := env.has_bucket && env.skip_existing && env.bucketOgg key
    let local_wav_exists := fs.wav key
    let should_skip_wav := env.skip_existing && (local_wav_exists || wav_exists_in_bucket)
    if should_skip_wav then
      ogg_step env fs key ogg_exists_in_bucket { zero_stats with wav_skipped := 1 } []
    else if env.synthOk key then
      ogg_step env (fs_set_wav fs key) key ogg_exists_in_bucket
        { zero_stats with wav_made := 1 } [key]
    else
      ⟨fs, { zero_stats with wav_failed := 1 }, [key], []⟩

/-- Accumulator of the entry loop of `generate_audio_for_language`. -/
structure RunState where
  fs : FS
  stats : Stats
  synth_calls : List String
  transcode_calls : List String

/-- Fold step threading the filesystem, statistics and call traces. -/
def run_step (env : GenEnv) (acc : RunState) (e : String × String) : RunState :=
  let r := process_entry env acc.fs e.1 e.2
  ⟨r.fs, stats_add acc.stats r.delta,
   acc.synth_calls ++ r.synth_calls, acc.transcode_calls ++ r.transcode_calls⟩

/-- The entry loop of `generate_audio_for_language`. -/
def run_entries (env : GenEnv) (init : RunState)
    (entries : List (String × String)) : RunState :=
  entries.foldl (run_step env) init

/-- Result of `generate_audio_for_language`: final filesystem, the
returned statistics (`none` models Python `return None`), and the
collaborator call traces. -/
structure GenResult where
  fs : FS
  stats : Option Stats
  synth_calls : List String
  transcode_calls : List String

/-- `generate_audio_for_language` from `src/audio_generator.py`, after
I/O: `translation_data` is the loaded translation file (`none` on load
failure; Python `if not translation_data` also catches the empty
dict), `voices` is `voice_info['voices']`.  `total_entries` is set to
the number of ALL loaded entries up front; an empty voice list returns
the zero-action statistics unchanged. -/
def generate_audio_for_language (translation_data : Option (List (String × String)))
    (voices : List (String × String)) (env : GenEnv) (fs : FS) : GenResult :=
  match translation_data with
  | none => ⟨fs, none, [], []⟩
  | some entries =>
    if entries.isEmpty then ⟨fs, none, [], []⟩
    else
      let stats0 : Stats := { zero_stats with total_entries := entries.length }
      if voices.isEmpty then ⟨fs, some stats0, [], []⟩
      else
        let r := run_entries env ⟨fs, stats0, [], []⟩ entries
        ⟨r.fs, some r.stats, r.synth_calls, r.transcode_calls⟩

/-- Per-language accounting of the generation loop of `src/main.py`:
a language whose directories cannot be created (empty voice list) or
whose generation returns the `None` sentinel increments
`failed_languages`; a stats result increments `processed_languages`. -/
def main_loop_step (gen : String → MatchInfo → Option Stats)
    (acc : Nat × Nat) (e : String × MatchInfo) : Nat × Nat :=
  if e.2.voices.isEmpty then (acc.1, acc.2 + 1)
  else
    match gen e.1 e.2 with
    | some _ => (acc.1 + 1, acc.2)
    | none => (acc.1, acc.2 + 1)

/-- The matching / abort / generation-loop slice of `main` from
`src/main.py`: match languages to voices; when the mapping is empty
return exit code 1 before any generation work; otherwise run the
per-language loop (abstracted by the oracle `gen`) and return exit
code 0 with the processed / failed counts. -/
def main_run (google_voices : List Voice) (doc : Option HtmlTable)
    (translation_files : List (String × String)) (dirs : List String)
    (gen : String → MatchInfo → Option Stats) : Nat × Nat × Nat :=
  let parsed := parse_minecraft_language_table doc
  let mapping := (match_languages_to_voices google_voices parsed
    translation_files dirs []).1
  if mapping.isEmpty then (1, 0, 0)
  else
    let counts := mapping.foldl (main_loop_step gen) (0, 0)
    (0, counts.1, counts.2)

/-- First element of minimal `get_voice_priority` (helper used to
characterize the head of the stable sort in `select_voices_for_language`). -/
def first_min : List Voice → Option Voice
  | [] => none
  | v :: rest =>
    match first_min rest with
    | none => some v
    | some m => if get_voice_priority v ≤ get_voice_priority m then some v else some m

/-! Concrete inputs shared by witnesses and counterexamples. -/

/-- The catalog voice of the spec's Afrikaans scenario. -/
def vAf : Voice := ⟨"af-ZA-Standard-A", ["af-ZA"], "FEMALE"⟩

/-- A one-voice catalog. -/
def gvAf : List Voice := [vAf]

/-- Language mapping for the Afrikaans scenario. -/
def lmAf : List (String × String) := [("af_za", "afr")]

/-- Translation files for the Afrikaans scenario. -/
def filesAf : List (String × String) := [("af_za_processed.json", "af_za")]

/-- A directory listing in which the completed Afrikaans OGG directory
already exists. -/
def dirsAf : List String := ["af-ZA-Standard-A-female-OGG"]

/-- Generation environment: no bucket, skip-existing on, synthesis and
transcode always succeed. -/
def envOk : GenEnv := ⟨false, true, fun _ => false, fun _ => false, fun _ => true, fun _ => true⟩

/-- Generation environment: no bucket, skip-existing on, synthesis
always fails, transcode succeeds. -/
def envSynthFail : GenEnv :=
  ⟨false, true, fun _ => false, fun _ => false, fun _ => false, fun _ => true⟩

/-- The empty filesystem. -/
def fsEmpty : FS := ⟨fun _ => false, fun _ => false⟩

/-! ### C1 — the existing-directory check does not exclude a language -/

/-- Claim C1 counterexample: the completed directory
`af-ZA-Standard-A-female-OGG` exists at the start of the run (the
Run-State check reports true for `af-ZA`), yet the matcher still
selects a voice for `af-ZA` and adds it to the used-languages set, so
after the run the used-languages set does contain that code. -/
theorem c1_counterexample :
    check_existing_audio_directories "af-ZA" dirsAf = true ∧
    (match_languages_to_voices gvAf (some lmAf) filesAf dirsAf []).2 = ["af-ZA"] ∧
    (match_languages_to_voices gvAf (some lmAf) filesAf dirsAf []).1 =
      [("af_za_processed.json",
        ⟨"af_za", "af-ZA", "afr", [("af-ZA-Standard-A", "female")]⟩)] :=
  ⟨rfl, rfl, rfl⟩

/-- Claim C1 (amended): the existing-directory check is computed for
information only and has no effect on matching — the matcher's result
(mapping and used-languages set) is identical for any two directory
listings, so a language whose completed audio directory already exists
is still matched, its voice selected and its code added to the
used-languages set. -/
theorem c1_existing_directory_check_informational
    (google_voices : List Voice) (parsed_mapping : Option (List (String × String)))
    (translation_files : List (String × String)) (dirs dirs' : List String)
    (used_languages : List String) :
    match_languages_to_voices google_voices parsed_mapping translation_files
        dirs used_languages =
    match_languages_to_voices google_voices parsed_mapping translation_files
        dirs' used_languages := by
  unfold match_languages_to_voices
  cases parsed_mapping with
  | none => rfl
  | some lm =>
    simp only
    congr 1

/-! ### C8 — a missing row container is fatal before generation -/

/-- Claim C8: when the wikitable or its row container (tbody) is absent
from the reference document, parsing fails (the raised error is caught
and surfaces as the failure value), and the run aborts with exit code 1
before any per-language generation work: for every generation oracle the
run result is exit 1 with zero processed and zero failed languages. -/
theorem c8_parse_failure_fatal (doc : Option HtmlTable)
    (h : doc = none ∨ ∃ t, doc = some t ∧ t.tbody = none) :
    parse_minecraft_language_table doc = none ∧
    ∀ (google_voices : List Voice) (translation_files : List (String × String))
      (dirs : List String) (gen : String → MatchInfo → Option Stats),
      main_run google_voices doc translation_files dirs gen = (1, 0, 0) := by
  have hp : parse_minecraft_language_table doc = none := by
    rcases h with h | ⟨t, ht, htb⟩
    · rw [h]; rfl
    · subst ht
      simp [parse_minecraft_language_table, htb]
  refine ⟨hp, fun gv files dirs gen => ?_⟩
  unfold main_run
  rw [hp]
  unfold match_languages_to_voices
  by_cases hgv : gv.isEmpty <;> simp [hgv]

/-- Witness for C8 at a concrete document with no table at all. -/
theorem c8_parse_failure_fatal_witness :
    parse_minecraft_language_table none = none ∧
    main_run gvAf none filesAf dirsAf (fun _ _ => none) = (1, 0, 0) := by
  have h := c8_parse_failure_fatal none (Or.inl rfl)
  exact ⟨h.1, h.2 gvAf filesAf dirsAf (fun _ _ => none)⟩

/-! ### C10 — load failure / zero entries vs zero voices -/

/-- Claim C10: a translation file that fails to load or holds zero
entries makes the generation pipeline return the failure sentinel
(no stats at all), which the main loop counts as a failed language; a
language with zero selected voices instead yields a stats object whose
action counters are all zero (only `total_entries` is set), which the
main loop counts as processed. -/
theorem c10_failure_sentinel :
    (∀ (voices : List (String × String)) (env : GenEnv) (fs : FS),
      generate_audio_for_language none voices env fs = ⟨fs, none, [], []⟩) ∧
    (∀ (voices : List (String × String)) (env : GenEnv) (fs : FS),
      generate_audio_for_language (some []) voices env fs = ⟨fs, none, [], []⟩) ∧
    (∀ (entries : List (String × String)) (env : GenEnv) (fs : FS),
      entries ≠ [] →
      generate_audio_for_language (some entries) [] env fs =
        ⟨fs, some { zero_stats with total_entries := entries.length }, [], []⟩) ∧
    (∀ (gen : String → MatchInfo → Option Stats) (acc : Nat × Nat)
        (filename : String) (mi : MatchInfo),
      mi.voices ≠ [] → gen filename mi = none →
      main_loop_step gen acc (filename, mi) = (acc.1, acc.2 + 1)) ∧
    (∀ (gen : String → MatchInfo → Option Stats) (acc : Nat × Nat)
        (filename : String) (mi : MatchInfo) (s : Stats),
      mi.voices ≠ [] → gen filename mi = some s →
      main_loop_step gen acc (filename, mi) = (acc.1 + 1, acc.2)) := by
  refine ⟨fun voices env fs => rfl, fun voices env fs => rfl,
    fun entries env fs hne => ?_, fun gen acc filename mi hv hg => ?_,
    fun gen acc filename mi s hv hg => ?_⟩
  · unfold generate_audio_for_language
    simp [List.isEmpty_iff, hne]
  · unfold main_loop_step
    simp [List.isEmpty_iff, hv, hg]
  · unfold main_loop_step
    simp [List.isEmpty_iff, hv, hg]

/-- Witness for C10: concrete instances of all five conjuncts. -/
theorem c10_failure_sentinel_witness :
    generate_audio_for_language none [("af-ZA-Standard-A", "female")] envOk fsEmpty =
      ⟨fsEmpty, none, [], []⟩ ∧
    generate_audio_for_language (some []) [("af-ZA-Standard-A", "female")] envOk fsEmpty =
      ⟨fsEmpty, none, [], []⟩ ∧
    generate_audio_for_language (some [("k1", "hello")]) [] envOk fsEmpty =
      ⟨fsEmpty, some { zero_stats with total_entries := 1 }, [], []⟩ ∧
    main_loop_step (fun _ _ => none) (0, 0)
      ("f", ⟨"af_za", "af-ZA", "afr", [("af-ZA-Standard-A", "female")]⟩) = (0, 1) ∧
    main_loop_step (fun _ _ => some zero_stats) (0, 0)
      ("f", ⟨"af_za", "af-ZA", "afr", [("af-ZA-Standard-A", "female")]⟩) = (1, 0) := by
  have h := c10_failure_sentinel
  refine ⟨h.1 _ envOk fsEmpty, h.2.1 _ envOk fsEmpty,
    h.2.2.1 [("k1", "hello")] envOk fsEmpty (by decide),
    h.2.2.2.1 (fun _ _ => none) (0, 0) "f" _ (by decide) rfl,
    h.2.2.2.2 (fun _ _ => some zero_stats) (0, 0) "f" _ _ (by decide) rfl⟩

/-! ### Per-entry and fold lemmas for the generation pipeline -/

/-- Unfolding of the entry loop on a cons. -/
lemma run_entries_cons (env : GenEnv) (init : RunState) (e : String × String)
    (rest : List (String × String)) :
    run_entries env init (e :: rest) = run_entries env (run_step env init e) rest := rfl

/-- Per entry, exactly one of the three WAV counters is incremented
when the text is not blank, and none when it is; the per-entry delta
never touches `total_entries`. -/
lemma process_entry_wav_delta (env : GenEnv) (fs : FS) (k t : String) :
    (process_entry env fs k t).delta.wav_made +
      (process_entry env fs k t).delta.wav_skipped +
      (process_entry env fs k t).delta.wav_failed =
        (if is_blank t then 0 else 1) ∧
    (process_entry env fs k t).delta.total_entries = 0 := by
  simp only [process_entry, ogg_step]
  split_ifs <;> simp [zero_stats]

/-- Fold version: the three WAV counters grow by exactly the number of
non-blank entries, and `total_entries` is unchanged by the loop. -/
lemma run_entries_wav_conservation (env : GenEnv) (entries : List (String × String)) :
    ∀ init : RunState,
    (run_entries env init entries).stats.wav_made +
      (run_entries env init entries).stats.wav_skipped +
      (run_entries env init entries).stats.wav_failed =
      init.stats.wav_made + init.stats.wav_skipped + init.stats.wav_failed +
        (entries.filter (fun e => !is_blank e.2)).length ∧
    (run_entries env init entries).stats.total_entries = init.stats.total_entries := by
  induction entries with
  | nil => intro init; simp [run_entries]
  | cons e rest ih =>
    intro init
    rw [run_entries_cons]
    have hd := process_entry_wav_delta env init.fs e.1 e.2
    have hstep := ih (run_step env init e)
    have m1 : (run_step env init e).stats.wav_made =
        init.stats.wav_made + (process_entry env init.fs e.1 e.2).delta.wav_made := rfl
    have m2 : (run_step env init e).stats.wav_skipped =
        init.stats.wav_skipped + (process_entry env init.fs e.1 e.2).delta.wav_skipped := rfl
    have m3 : (run_step env init e).stats.wav_failed =
        init.stats.wav_failed + (process_entry env init.fs e.1 e.2).delta.wav_failed := rfl
    have m4 : (run_step env init e).stats.total_entries =
        init.stats.total_entries + (process_entry env init.fs e.1 e.2).delta.total_entries := rfl
    constructor
    · rw [hstep.1, m1, m2, m3]
      by_cases hb : is_blank e.2
      · have h := hd.1
        rw [if_pos hb] at h
        simp [List.filter_cons, hb]
        omega
      · have h := hd.1
        rw [if_neg (by simp [hb])] at h
        simp [List.filter_cons, hb]
        omega
    · rw [hstep.2, m4, hd.2]
      omega

/-! ### C2 — stats conservation -/

/-- Claim C2 counterexample: a localization unit with one
whitespace-only entry.  The entry contributes to no action counter, yet
`total_entries` is 1 (the pipeline sets it to the number of ALL loaded
entries), so `wav_made + wav_skipped + wav_failed = 0 ≠ 1 =
total_entries`: the conservation equation as claimed fails, and blank
entries are not excluded from `total_entries`. -/
theorem c2_counterexample :
    (generate_audio_for_language (some [("k1", " ")])
      [("af-ZA-Standard-A", "female")] envOk fsEmpty).stats =
      some ⟨0, 0, 0, 0, 0, 0, 1⟩ ∧ (0 + 0 + 0 : Nat) ≠ 1 :=
  ⟨rfl, by decide⟩

/-- Claim C2 (amended): for every localization unit processed by the
pipeline, the returned stats satisfy `wav_made + wav_skipped +
wav_failed = number of entries with non-blank text`, while
`total_entries` equals the number of ALL entries (blank entries are
excluded from the action counters but are counted in `total_entries`,
so the claimed equation holds exactly when no entry is blank). -/
theorem c2_stats_conservation (env : GenEnv) (fs : FS)
    (entries : List (String × String)) (voices : List (String × String))
    (hv : voices ≠ []) :
    ∀ s : Stats,
      (generate_audio_for_language (some entries) voices env fs).stats = some s →
      s.wav_made + s.wav_skipped + s.wav_failed =
        (entries.filter (fun e => !is_blank e.2)).length ∧
      s.total_entries = entries.length := by
  intro s hs
  by_cases hne : entries.isEmpty
  · rw [generate_audio_for_language] at hs
    simp [hne] at hs
  · rw [generate_audio_for_language] at hs
    simp only [hne, Bool.false_eq_true, if_false, List.isEmpty_iff] at hs
    rw [if_neg (by simp [List.isEmpty_iff, hv])] at hs
    have hrun := run_entries_wav_conservation env entries
      ⟨fs, { zero_stats with total_entries := entries.length }, [], []⟩
    have hs' : (run_entries env
        ⟨fs, { zero_stats with total_entries := entries.length }, [], []⟩ entries).stats = s := by
      exact Option.some.inj hs
    rw [hs'] at hrun
    constructor
    · have := hrun.1
      simpa [zero_stats] using this
    · have := hrun.2
      simpa [zero_stats] using this

/-- Witness for the amended C2 at a concrete input containing one
blank and one non-blank entry. -/
theorem c2_stats_conservation_witness :
    (generate_audio_for_language (some [("k1", " "), ("k2", "hello")])
      [("af-ZA-Standard-A", "female")] envOk fsEmpty).stats =
      some ⟨1, 0, 1, 0, 0, 0, 2⟩ ∧
    (1 : Nat) + 0 + 0 =
      ([("k1", " "), ("k2", "hello")].filter (fun e => !is_blank e.2)).length ∧
    (2 : Nat) = [("k1", " "), ("k2", "hello")].length := by
  have hstats : (generate_audio_for_language (some [("k1", " "), ("k2", "hello")])
      [("af-ZA-Standard-A", "female")] envOk fsEmpty).stats =
      some ⟨1, 0, 1, 0, 0, 0, 2⟩ := rfl
  have h := c2_stats_conservation envOk fsEmpty [("k1", " "), ("k2", "hello")]
    [("af-ZA-Standard-A", "female")] (by decide) ⟨1, 0, 1, 0, 0, 0, 2⟩ hstats
  exact ⟨hstats, h.1, h.2⟩

/-! ### C3 — WAV failure short-circuits the OGG step -/

/-- Claim C3 counterexample: synthesis fails for the single non-blank
entry; the stats record the WAV failure but `ogg_failed` stays 0 (the
claim says the OGG step is recorded as FAILED, i.e. `ogg_failed` would
be 1), and the transcode collaborator is never invoked. -/
theorem c3_counterexample :
    (generate_audio_for_language (some [("k1", "hello")])
      [("af-ZA-Standard-A", "female")] envSynthFail fsEmpty).stats =
      some ⟨0, 0, 0, 0, 1, 0, 1⟩ ∧
    (generate_audio_for_language (some [("k1", "hello")])
      [("af-ZA-Standard-A", "female")] envSynthFail fsEmpty).transcode_calls = [] ∧
    (0 : Nat) ≠ 1 :=
  ⟨rfl, rfl, by decide⟩

/-- Claim C3 (amended): an entry whose WAV synthesis fails
short-circuits its OGG step entirely — the loop records only
`wav_failed := 1` for it, leaves the filesystem unchanged, and does not
invoke the transcode collaborator (in particular `ogg_failed` is NOT
incremented for that entry); and in general the transcode collaborator
is invoked for an entry only when the corresponding WAV file exists on
disk at that point. -/
theorem c3_wav_failure_short_circuit :
    (∀ (env : GenEnv) (fs : FS) (k t : String),
      is_blank t = false →
      (env.skip_existing &&
        (fs.wav k || env.has_bucket && env.skip_existing && env.bucketWav k)) = false →
      env.synthOk k = false →
      process_entry env fs k t = ⟨fs, { zero_stats with wav_failed := 1 }, [k], []⟩) ∧
    (∀ (env : GenEnv) (fs : FS) (k t : String),
      (process_entry env fs k t).transcode_calls ≠ [] →
      (process_entry env fs k t).fs.wav k = true) := by
  constructor
  · intro env fs k t hb hskip hsy
    rw [process_entry]
    simp only [hb, Bool.false_eq_true, if_false]
    rw [if_neg (by rw [hskip]; simp), if_neg (by rw [hsy]; simp)]
  · intro env fs k t
    rw [process_entry]
    by_cases hb : is_blank t
    · simp [hb]
    · simp only [hb, Bool.false_eq_true, if_false]
      by_cases hskip : (env.skip_existing &&
          (fs.wav k || env.has_bucket && env.skip_existing && env.bucketWav k)) = true
      · rw [if_pos hskip]
        rw [ogg_step]
        split_ifs <;> simp_all [fs_set_ogg]
      · rw [if_neg hskip]
        by_cases hsy : env.synthOk k = true
        · rw [if_pos hsy]
          rw [ogg_step]
          have hw : (fs_set_wav fs k).wav k = true := by simp [fs_set_wav]
          split_ifs <;> simp_all [fs_set_ogg, fs_set_wav]
        · rw [if_neg hsy]
          intro hc
          exact absurd rfl hc

/-- Witness for the amended C3: concrete failing synthesis. -/
theorem c3_wav_failure_short_circuit_witness :
    process_entry envSynthFail fsEmpty "k1" "hello" =
      ⟨fsEmpty, { zero_stats with wav_failed := 1 }, ["k1"], []⟩ :=
  c3_wav_failure_short_circuit.1 envSynthFail fsEmpty "k1" "hello" rfl rfl rfl

/-! ### C6 — WAV-exists-but-OGG-missing resumes at the OGG step -/

/-- Claim C6: with `skip_existing = true`, an entry whose WAV target
already exists on disk but whose OGG target is missing (locally, and
not reported by the bucket) has its WAV step SKIPPED and resumes at the
OGG step: the transcode collaborator is invoked for exactly that key
and, on success, the OGG is counted MADE and its file now exists; the
WAV is not re-synthesized (no synthesis call, `wav_made = 0`). -/
theorem c6_resume_at_ogg_step (env : GenEnv) (fs : FS) (k t : String)
    (hskip : env.skip_existing = true) (hb : is_blank t = false)
    (hwav : fs.wav k = true) (hogg : fs.ogg k = false)
    (hbucket : (env.has_bucket && env.bucketOgg k) = false)
    (htr : env.transcodeOk k = true) :
    (process_entry env fs k t).delta.wav_skipped = 1 ∧
    (process_entry env fs k t).delta.wav_made = 0 ∧
    (process_entry env fs k t).delta.ogg_made = 1 ∧
    (process_entry env fs k t).synth_calls = [] ∧
    (process_entry env fs k t).transcode_calls = [k] ∧
    (process_entry env fs k t).fs.ogg k = true := by
  have hstep : process_entry env fs k t =
      ogg_step env fs k (env.has_bucket && env.skip_existing && env.bucketOgg k)
        { zero_stats with wav_skipped := 1 } [] := by
    rw [process_entry]
    simp only [hb, Bool.false_eq_true, if_false]
    rw [if_pos (by rw [hskip, hwav]; simp)]
  have hob : (env.has_bucket && env.skip_existing && env.bucketOgg k) = false := by
    rw [hskip]
    rw [Bool.and_comm env.has_bucket true, Bool.true_and]
    exact hbucket
  rw [hstep, ogg_step]
  rw [if_neg (by rw [hogg, hob, hskip]; simp)]
  rw [if_pos hwav, if_pos htr]
  refine ⟨rfl, rfl, rfl, rfl, rfl, ?_⟩
  simp [fs_set_ogg]

/-- Witness for C6: WAV present, OGG absent, transcode succeeds. -/
theorem c6_resume_at_ogg_step_witness :
    (process_entry envOk ⟨fun _ => true, fun _ => false⟩ "k1" "hello").delta.wav_skipped = 1 ∧
    (process_entry envOk ⟨fun _ => true, fun _ => false⟩ "k1" "hello").delta.wav_made = 0 ∧
    (process_entry envOk ⟨fun _ => true, fun _ => false⟩ "k1" "hello").delta.ogg_made = 1 ∧
    (process_entry envOk ⟨fun _ => true, fun _ => false⟩ "k1" "hello").synth_calls = [] ∧
    (process_entry envOk ⟨fun _ => true, fun _ => false⟩ "k1" "hello").transcode_calls = ["k1"] ∧
    (process_entry envOk ⟨fun _ => true, fun _ => false⟩ "k1" "hello").fs.ogg "k1" = true :=
  c6_resume_at_ogg_step envOk ⟨fun _ => true, fun _ => false⟩ "k1" "hello"
    rfl rfl rfl rfl rfl rfl

/-! ### C4 — matching order and original-cased result -/

/-- If some element satisfies the predicate, `find?` returns a result. -/
lemma exists_find?_some {p : String → Bool} :
    ∀ {l : List String}, (∃ x, x ∈ l ∧ p x = true) → ∃ a, l.find? p = some a := by
  intro l
  induction l with
  | nil =>
    rintro ⟨x, hx, _⟩
    cases hx
  | cons h t ih =>
    rintro ⟨x, hx, hpx⟩
    by_cases hp : p h
    · exact ⟨h, by rw [List.find?_cons_of_pos _ hp]⟩
    · rcases List.mem_cons.mp hx with hx | hx
      · rw [hx] at hpx
        exact absurd hpx hp
      · rcases ih ⟨x, hx, hpx⟩ with ⟨a, ha⟩
        exact ⟨a, by rw [List.find?_cons_of_neg _ hp]; exact ha⟩

/-- A successful `find?` returns the first satisfying element: it
satisfies the predicate and everything before it fails it. -/
lemma find?_first_props {p : String → Bool} :
    ∀ {l : List String} {a : String}, l.find? p = some a →
      p a = true ∧ ∃ pre post, l = pre ++ a :: post ∧ ∀ x ∈ pre, p x = false := by
  intro l
  induction l with
  | nil => intro a h; cases h
  | cons h t ih =>
    intro a hf
    by_cases hp : p h
    · rw [List.find?_cons_of_pos _ hp] at hf
      cases hf
      exact ⟨hp, [], t, rfl, by intro x hx; cases hx⟩
    · rw [List.find?_cons_of_neg _ hp] at hf
      rcases ih hf with ⟨hpa, pre, post, heq, hpre⟩
      refine ⟨hpa, h :: pre, post, by rw [heq]; rfl, ?_⟩
      intro x hx
      rcases List.mem_cons.mp hx with hx | hx
      · rw [hx]
        exact Bool.eq_false_iff.mpr hp
      · exact hpre x hx

/-- When some catalog code normalizes to the converted in-game code,
the matcher returns the first such code in catalog iteration order. -/
lemma find_matching_in_game_first (in_game iso : String) (gv : List Voice)
    (h : ∃ c ∈ all_catalog_codes gv,
      normalize_code c = normalize_code (convert_language_code in_game)) :
    ∃ c pre post, find_matching_google_language in_game iso gv = some c ∧
      all_catalog_codes gv = pre ++ c :: post ∧
      normalize_code c = normalize_code (convert_language_code in_game) ∧
      ∀ c' ∈ pre, normalize_code c' ≠ normalize_code (convert_language_code in_game) := by
  have hmem : normalize_code (convert_language_code in_game) ∈
      (all_catalog_codes gv).map normalize_code := by
    rcases h with ⟨c, hc, hnc⟩
    exact List.mem_map.mpr ⟨c, hc, hnc⟩
  have hfind : ∃ a, find_original_code
      (normalize_code (convert_language_code in_game)) gv = some a := by
    rcases h with ⟨c, hc, hnc⟩
    exact exists_find?_some ⟨c, hc, beq_iff_eq.mpr hnc⟩
  rcases hfind with ⟨a, ha⟩
  have hprops := find?_first_props ha
  rcases hprops with ⟨hpa, pre, post, heq, hpre⟩
  refine ⟨a, pre, post, ?_, heq, beq_iff_eq.mp hpa, ?_⟩
  · simp only [find_matching_google_language]
    rw [if_pos hmem, ha]
  · intro c' hc'
    have := hpre c' hc'
    intro habs
    rw [beq_iff_eq.mpr habs] at this
    cases this

/-- When no catalog code normalizes to the converted in-game code but
some normalizes to the ISO code, the matcher falls back to the ISO code
and returns the first such catalog code. -/
lemma find_matching_iso_fallback (in_game iso : String) (gv : List Voice)
    (h1 : ¬ ∃ c ∈ all_catalog_codes gv,
      normalize_code c = normalize_code (convert_language_code in_game))
    (h2 : ∃ c ∈ all_catalog_codes gv, normalize_code c = normalize_code iso) :
    ∃ c pre post, find_matching_google_language in_game iso gv = some c ∧
      all_catalog_codes gv = pre ++ c :: post ∧
      normalize_code c = normalize_code iso ∧
      ∀ c' ∈ pre, normalize_code c' ≠ normalize_code iso := by
  have hmem1 : normalize_code (convert_language_code in_game) ∉
      (all_catalog_codes gv).map normalize_code := by
    intro hmem
    rcases List.mem_map.mp hmem with ⟨c, hc, hnc⟩
    exact h1 ⟨c, hc, hnc⟩
  have hmem2 : normalize_code iso ∈ (all_catalog_codes gv).map normalize_code := by
    rcases h2 with ⟨c, hc, hnc⟩
    exact List.mem_map.mpr ⟨c, hc, hnc⟩
  have hfind : ∃ a, find_original_code (normalize_code iso) gv = some a := by
    rcases h2 with ⟨c, hc, hnc⟩
    exact exists_find?_some ⟨c, hc, beq_iff_eq.mpr hnc⟩
  rcases hfind with ⟨a, ha⟩
  rcases find?_first_props ha with ⟨hpa, pre, post, heq, hpre⟩
  refine ⟨a, pre, post, ?_, heq, beq_iff_eq.mp hpa, ?_⟩
  · simp only [find_matching_google_language]
    rw [if_neg hmem1, if_pos hmem2, ha]
  · intro c' hc'
    have := hpre c' hc'
    intro habs
    rw [beq_iff_eq.mpr habs] at this
    cases this

/-- When neither the converted in-game code nor the ISO code matches
any catalog code (after normalization), the matcher returns `none`. -/
lemma find_matching_none (in_game iso : String) (gv : List Voice)
    (h1 : ¬ ∃ c ∈ all_catalog_codes gv,
      normalize_code c = normalize_code (convert_language_code in_game))
    (h2 : ¬ ∃ c ∈ all_catalog_codes gv, normalize_code c = normalize_code iso) :
    find_matching_google_language in_game iso gv = none := by
  have hmem1 : normalize_code (convert_language_code in_game) ∉
      (all_catalog_codes gv).map normalize_code := by
    intro hmem
    rcases List.mem_map.mp hmem with ⟨c, hc, hnc⟩
    exact h1 ⟨c, hc, hnc⟩
  have hmem2 : normalize_code iso ∉ (all_catalog_codes gv).map normalize_code := by
    intro hmem
    rcases List.mem_map.mp hmem with ⟨c, hc, hnc⟩
    exact h2 ⟨c, hc, hnc⟩
  simp only [find_matching_google_language]
  rw [if_neg hmem1, if_neg hmem2]

/-- Claim C4: the matcher first compares the normalized converted
in-game code against the normalized catalog codes and, on a match,
returns the first original-cased catalog code (in iteration order)
that produced the match; only when that fails does it repeat the
procedure with the ISO code; when neither matches it returns `none`.
In particular, resolving `af_za` with ISO `afr` against any catalog
containing the language code `af-ZA` (as the provider's spelling of
that code) returns exactly `af-ZA`, regardless of catalog order. -/
theorem c4_matching_order_and_casing (in_game iso : String) (gv : List Voice) :
    ((∃ c ∈ all_catalog_codes gv,
        normalize_code c = normalize_code (convert_language_code in_game)) →
      ∃ c pre post, find_matching_google_language in_game iso gv = some c ∧
        all_catalog_codes gv = pre ++ c :: post ∧
        normalize_code c = normalize_code (convert_language_code in_game) ∧
        ∀ c' ∈ pre, normalize_code c' ≠ normalize_code (convert_language_code in_game)) ∧
    ((¬ ∃ c ∈ all_catalog_codes gv,
        normalize_code c = normalize_code (convert_language_code in_game)) →
      (∃ c ∈ all_catalog_codes gv, normalize_code c = normalize_code iso) →
      ∃ c pre post, find_matching_google_language in_game iso gv = some c ∧
        all_catalog_codes gv = pre ++ c :: post ∧
        normalize_code c = normalize_code iso ∧
        ∀ c' ∈ pre, normalize_code c' ≠ normalize_code iso) ∧
    ((¬ ∃ c ∈ all_catalog_codes gv,
        normalize_code c = normalize_code (convert_language_code in_game)) →
      (¬ ∃ c ∈ all_catalog_codes gv, normalize_code c = normalize_code iso) →
      find_matching_google_language in_game iso gv = none) ∧
    (∀ gv' : List Voice, "af-ZA" ∈ all_catalog_codes gv' →
      (∀ c ∈ all_catalog_codes gv', normalize_code c = "af-za" → c = "af-ZA") →
      find_matching_google_language "af_za" "afr" gv' = some "af-ZA") := by
  refine ⟨find_matching_in_game_first in_game iso gv,
    find_matching_iso_fallback in_game iso gv,
    find_matching_none in_game iso gv, ?_⟩
  intro gv' hmem huniq
  have hconv : normalize_code (convert_language_code "af_za") = "af-za" := rfl
  have h : ∃ c ∈ all_catalog_codes gv',
      normalize_code c = normalize_code (convert_language_code "af_za") :=
    ⟨"af-ZA", hmem, rfl⟩
  rcases find_matching_in_game_first "af_za" "afr" gv' h with
    ⟨c, pre, post, hres, heq, hnc, _⟩
  have hc_mem : c ∈ all_catalog_codes gv' := by
    rw [heq]
    exact List.mem_append.mpr (Or.inr (List.mem_cons_self c post))
  have : c = "af-ZA" := huniq c hc_mem (by rw [hnc]; rfl)
  rw [hres, this]

/-- Witness for C4: the Afrikaans scenario catalog. -/
theorem c4_matching_order_and_casing_witness :
    find_matching_google_language "af_za" "afr" gvAf = some "af-ZA" :=
  (c4_matching_order_and_casing "af_za" "afr" gvAf).2.2.2 gvAf
    (by decide) (by decide)

/-! ### C5 — voice selection by tier with stable tie-break -/

/-- `first_min` is `none` exactly on the empty list. -/
lemma first_min_eq_none (l : List Voice) : first_min l = none ↔ l = [] := by
  cases l with
  | nil => simp [first_min]
  | cons x rest =>
    constructor
    · intro h
      exfalso
      rw [first_min] at h
      cases hm : first_min rest with
      | none => rw [hm] at h; cases h
      | some m =>
        rw [hm] at h
        by_cases hle : get_voice_priority x ≤ get_voice_priority m <;> simp [hle] at h
    · intro h
      cases h

/-- The element produced by `first_min` is the first of minimal
priority: the list splits around it with strictly larger priorities
before it, and it is a global minimum. -/
lemma first_min_spec :
    ∀ (l : List Voice) (v : Voice), first_min l = some v →
      (∃ pre post, l = pre ++ v :: post ∧
        ∀ w ∈ pre, get_voice_priority v < get_voice_priority w) ∧
      ∀ w ∈ l, get_voice_priority v ≤ get_voice_priority w := by
  intro l
  induction l with
  | nil => intro v h; cases h
  | cons x rest ih =>
    intro v h
    rw [first_min] at h
    cases hm : first_min rest with
    | none =>
      simp only [hm] at h
      have hv : x = v := Option.some.inj h
      have hrest : rest = [] := (first_min_eq_none rest).mp hm
      subst hv
      subst hrest
      refine ⟨⟨[], [], rfl, by intro w hw; cases hw⟩, ?_⟩
      intro w hw
      rcases List.mem_cons.mp hw with hw | hw
      · rw [hw]
      · cases hw
    | some m =>
      simp only [hm] at h
      rcases ih m hm with ⟨⟨pre', post', heq', hpre'⟩, hmin'⟩
      by_cases hle : get_voice_priority x ≤ get_voice_priority m
      · rw [if_pos hle] at h
        have hv : x = v := Option.some.inj h
        subst hv
        refine ⟨⟨[], rest, rfl, by intro w hw; cases hw⟩, ?_⟩
        intro w hw
        rcases List.mem_cons.mp hw with hw | hw
        · rw [hw]
        · exact le_trans hle (hmin' w hw)
      · rw [if_neg hle] at h
        have hv : m = v := Option.some.inj h
        subst hv
        refine ⟨⟨x :: pre', post', by rw [heq']; rfl, ?_⟩, ?_⟩
        · intro w hw
          rcases List.mem_cons.mp hw with hw | hw
          · rw [hw]; omega
          · exact hpre' w hw
        · intro w hw
          rcases List.mem_cons.mp hw with hw | hw
          · rw [hw]; omega
          · exact hmin' w hw

/-- Conversely, the first element of minimal priority is what
`first_min` returns. -/
lemma first_min_of_first :
    ∀ (pre : List Voice) (v : Voice) (post : List Voice),
      (∀ w ∈ pre, get_voice_priority v < get_voice_priority w) →
      (∀ w ∈ post, get_voice_priority v ≤ get_voice_priority w) →
      first_min (pre ++ v :: post) = some v := by
  intro pre
  induction pre with
  | nil =>
    intro v post _ hmin
    rw [List.nil_append, first_min]
    cases hm : first_min post with
    | none => simp only [hm]
    | some m =>
      have hmem : m ∈ post := by
        rcases (first_min_spec post m hm).1 with ⟨p1, p2, heq, _⟩
        rw [heq]
        exact List.mem_append.mpr (Or.inr (List.mem_cons_self m p2))
      simp only [hm]
      rw [if_pos (hmin m hmem)]
  | cons x pre ih =>
    intro v post hpre hmin
    have hx : get_voice_priority v < get_voice_priority x :=
      hpre x (List.mem_cons_self x pre)
    have hrec := ih v post
      (fun w hw => hpre w (List.mem_cons_of_mem x hw)) hmin
    rw [List.cons_append, first_min]
    simp only [hrec]
    rw [if_neg (by omega)]

/-- The head of the insertion sort used in
`select_voices_for_language` is the first element of minimal priority
(this is exactly the stability of Python `list.sort`). -/
lemma insertionSort_head?_eq_first_min (l : List Voice) :
    (List.insertionSort
      (fun a b => get_voice_priority a ≤ get_voice_priority b) l).head? =
      first_min l := by
  induction l with
  | nil => rfl
  | cons v rest ih =>
    rw [List.insertionSort]
    cases hs : List.insertionSort
        (fun a b => get_voice_priority a ≤ get_voice_priority b) rest with
    | nil =>
      have hrest : rest = [] := by
        have hp := List.perm_insertionSort
          (fun a b => get_voice_priority a ≤ get_voice_priority b) rest
        rw [hs] at hp
        exact (List.Perm.nil_eq hp).symm
      subst hrest
      rfl
    | cons h tl =>
      have ihh : first_min rest = some h := by
        rw [← ih, hs]
        rfl
      rw [List.orderedInsert]
      rw [first_min]
      simp only [ihh]
      by_cases hle : get_voice_priority v ≤ get_voice_priority h
      · rw [if_pos hle, if_pos hle]
        rfl
      · rw [if_neg hle, if_neg hle]
        rfl

/-- Claim C5: the selector filters the catalog to voices whose
language-code set contains the canonical code exactly and whose gender
is FEMALE; when that filtered list is empty it returns the empty
selection, and otherwise it returns exactly the single survivor that
is first (in catalog enumeration order) among those of minimal
priority under the fixed tier order Chirp3-HD > Chirp-HD > Neural2 >
WaveNet > unmarked — so a higher-tier female voice always beats a
lower-tier one even when the lower-tier voice comes first in the
catalog, and ties go to the earlier catalog entry. -/
theorem c5_voice_selection (language_code : String) (gv : List Voice) :
    (gv.filter (fun v => v.language_codes.contains language_code &&
        v.ssml_gender == "FEMALE") = [] →
      select_voices_for_language language_code gv = []) ∧
    (∀ (v : Voice) (pre post : List Voice),
      gv.filter (fun v => v.language_codes.contains language_code &&
        v.ssml_gender == "FEMALE") = pre ++ v :: post →
      (∀ w ∈ pre, get_voice_priority v < get_voice_priority w) →
      (∀ w ∈ pre ++ v :: post, get_voice_priority v ≤ get_voice_priority w) →
      select_voices_for_language language_code gv = [(v.name, "female")]) := by
  have hff : (gv.filter (fun v => v.language_codes.contains language_code)).filter
      (fun v => v.ssml_gender == "FEMALE") =
      gv.filter (fun v => v.language_codes.contains language_code &&
        v.ssml_gender == "FEMALE") := by
    rw [List.filter_filter]
    apply List.filter_congr
    intro v _
    exact Bool.and_comm _ _
  constructor
  · intro hfl
    rw [select_voices_for_language]
    by_cases hm : (gv.filter
        (fun v => v.language_codes.contains language_code)).isEmpty
    · rw [if_pos hm]
    · rw [if_neg hm]
      rw [if_pos (by rw [List.isEmpty_iff, hff]; exact hfl)]
  · intro v pre post hfl hpre hmin
    have hfemale : (gv.filter (fun v => v.language_codes.contains language_code)).filter
        (fun v => v.ssml_gender == "FEMALE") = pre ++ v :: post := by
      rw [hff, hfl]
    have hmne : ¬ (gv.filter
        (fun v => v.language_codes.contains language_code)).isEmpty = true := by
      rw [List.isEmpty_iff]
      intro h0
      rw [h0] at hfemale
      exact (List.cons_ne_nil v post) (List.append_eq_nil.mp hfemale.symm).2
    have hfne : ¬ ((gv.filter (fun v => v.language_codes.contains language_code)).filter
        (fun v => v.ssml_gender == "FEMALE")).isEmpty = true := by
      rw [List.isEmpty_iff, hfemale]
      intro h0
      exact (List.cons_ne_nil v post) (List.append_eq_nil.mp h0).2
    rw [select_voices_for_language]
    rw [if_neg hmne, if_neg hfne]
    have hfm : first_min ((gv.filter (fun v => v.language_codes.contains language_code)).filter
        (fun v => v.ssml_gender == "FEMALE")) = some v := by
      rw [hfemale]
      refine first_min_of_first pre v post hpre ?_
      intro w hw
      exact hmin w (List.mem_append.mpr (Or.inr (List.mem_cons_of_mem v hw)))
    have hh := insertionSort_head?_eq_first_min
      ((gv.filter (fun v => v.language_codes.contains language_code)).filter
        (fun v => v.ssml_gender == "FEMALE"))
    rw [hfm] at hh
    cases hs : List.insertionSort
        (fun a b => get_voice_priority a ≤ get_voice_priority b)
        ((gv.filter (fun v => v.language_codes.contains language_code)).filter
          (fun v => v.ssml_gender == "FEMALE")) with
    | nil => rw [hs] at hh; cases hh
    | cons w tl =>
      rw [hs] at hh
      have hw : w = v := Option.some.inj hh
      rw [hw]

/-- A tier-3 (Neural2) female voice listed before a tier-1
(Chirp3-HD) female voice for the same language. -/
def gvTier : List Voice :=
  [⟨"af-ZA-Neural2-A", ["af-ZA"], "FEMALE"⟩,
   ⟨"af-ZA-Chirp3-HD-A", ["af-ZA"], "FEMALE"⟩]

/-- Witness for C5: the tier-1 voice wins although the tier-3 voice
appears first in the catalog. -/
theorem c5_voice_selection_witness :
    select_voices_for_language "af-ZA" gvTier = [("af-ZA-Chirp3-HD-A", "female")] :=
  (c5_voice_selection "af-ZA" gvTier).2
    ⟨"af-ZA-Chirp3-HD-A", ["af-ZA"], "FEMALE"⟩
    [⟨"af-ZA-Neural2-A", ["af-ZA"], "FEMALE"⟩] []
    (by decide) (by decide) (by decide)

/-! ### C9 — used-language exclusivity -/

/-- One matcher step either leaves the accumulator unchanged or
appends one match whose canonical code was not yet used, adding that
code to the used set. -/
lemma match_step_cases (gv : List Voice) (lm : List (String × String))
    (dirs : List String) (mp : List (String × MatchInfo)) (used : List String)
    (f : String × String) :
    match_step gv lm dirs (mp, used) f = (mp, used) ∨
    ∃ mi : MatchInfo, mi.google_language_code ∉ used ∧
      match_step gv lm dirs (mp, used) f =
        (mp ++ [(f.1, mi)], used ++ [mi.google_language_code]) := by
  simp only [match_step]
  cases hf : find_matching_google_language f.2 ((lm.lookup f.2).getD "") gv with
  | none => exact Or.inl rfl
  | some glc =>
    show (if glc ∈ used then (mp, used)
      else
        if (select_voices_for_language glc gv).isEmpty = true then (mp, used)
        else (mp ++ [(f.1, ⟨f.2, glc, (lm.lookup f.2).getD "",
            select_voices_for_language glc gv⟩)], used ++ [glc])) = (mp, used) ∨
      ∃ mi : MatchInfo, mi.google_language_code ∉ used ∧
        (if glc ∈ used then (mp, used)
          else
            if (select_voices_for_language glc gv).isEmpty = true then (mp, used)
            else (mp ++ [(f.1, ⟨f.2, glc, (lm.lookup f.2).getD "",
                select_voices_for_language glc gv⟩)], used ++ [glc])) =
          (mp ++ [(f.1, mi)], used ++ [mi.google_language_code])
    by_cases hu : glc ∈ used
    · rw [if_pos hu]
      exact Or.inl rfl
    · rw [if_neg hu]
      by_cases hs : (select_voices_for_language glc gv).isEmpty = true
      · rw [if_pos hs]
        exact Or.inl rfl
      · rw [if_neg hs]
        exact Or.inr ⟨⟨f.2, glc, (lm.lookup f.2).getD "",
          select_voices_for_language glc gv⟩, hu, rfl⟩

/-- Invariant of the matcher fold: the canonical codes of the produced
mapping are pairwise distinct, every produced code is in the final used
set, and the used set only grows (the initial used set is a prefix of
the final one). -/
lemma match_fold_invariant (gv : List Voice) (lm : List (String × String))
    (dirs : List String) :
    ∀ (files : List (String × String)) (mp : List (String × MatchInfo))
      (used : List String),
      (mp.map (fun e => e.2.google_language_code)).Nodup →
      (∀ e ∈ mp, e.2.google_language_code ∈ used) →
      ((files.foldl (match_step gv lm dirs) (mp, used)).1.map
        (fun e => e.2.google_language_code)).Nodup ∧
      (∀ e ∈ (files.foldl (match_step gv lm dirs) (mp, used)).1,
        e.2.google_language_code ∈ (files.foldl (match_step gv lm dirs) (mp, used)).2) ∧
      used <+: (files.foldl (match_step gv lm dirs) (mp, used)).2 := by
  intro files
  induction files with
  | nil =>
    intro mp used h1 h2
    exact ⟨h1, h2, List.prefix_rfl⟩
  | cons f rest ih =>
    intro mp used h1 h2
    rw [List.foldl_cons]
    rcases match_step_cases gv lm dirs mp used f with hstep | ⟨mi, hnotin, hstep⟩
    · rw [hstep]
      exact ih mp used h1 h2
    · rw [hstep]
      have h1' : ((mp ++ [(f.1, mi)]).map
          (fun e => e.2.google_language_code)).Nodup := by
        rw [List.map_append, List.nodup_append]
        refine ⟨h1, List.nodup_singleton _, ?_⟩
        intro c hc hc'
        rcases List.mem_map.mp hc with ⟨e, he, hec⟩
        have : c = mi.google_language_code := by
          rcases List.mem_map.mp hc' with ⟨e', he', hec'⟩
          rcases List.mem_singleton.mp he' with h
          rw [← hec', h]
        rw [this] at hec
        exact hnotin (hec ▸ h2 e he)
      have h2' : ∀ e ∈ mp ++ [(f.1, mi)],
          e.2.google_language_code ∈ used ++ [mi.google_language_code] := by
        intro e he
        rcases List.mem_append.mp he with he | he
        · exact List.mem_append.mpr (Or.inl (h2 e he))
        · rcases List.mem_singleton.mp he with h
          rw [h]
          exact List.mem_append.mpr (Or.inr (List.mem_singleton.mpr rfl))
      rcases ih (mp ++ [(f.1, mi)]) (used ++ [mi.google_language_code]) h1' h2'
        with ⟨r1, r2, r3⟩
      exact ⟨r1, r2, List.IsPrefix.trans (List.prefix_append used _) r3⟩

/-- Claim C9: within a single run no two match results share a
canonical language code (the code list of the produced mapping has no
duplicates), every matched code ends up in the used-languages set, and
the used-languages set only grows during the run (the initial set is a
prefix of the final one) — once claimed, a canonical code is skipped
for every later localization. -/
theorem c9_used_language_exclusivity (gv : List Voice)
    (parsed : Option (List (String × String)))
    (files : List (String × String)) (dirs : List String)
    (used0 : List String) :
    ((match_languages_to_voices gv parsed files dirs used0).1.map
      (fun e => e.2.google_language_code)).Nodup ∧
    (∀ e ∈ (match_languages_to_voices gv parsed files dirs used0).1,
      e.2.google_language_code ∈
        (match_languages_to_voices gv parsed files dirs used0).2) ∧
    used0 <+: (match_languages_to_voices gv parsed files dirs used0).2 := by
  have htriv : (([] : List (String × MatchInfo)).map
      (fun e => e.2.google_language_code)).Nodup ∧
      (∀ e ∈ ([] : List (String × MatchInfo)),
        e.2.google_language_code ∈ used0) ∧
      used0 <+: used0 := by
    refine ⟨List.nodup_nil, ?_, List.prefix_rfl⟩
    intro e he
    cases he
  rw [match_languages_to_voices.eq_def]
  by_cases hgv : gv.isEmpty = true
  · rw [if_pos hgv]
    exact htriv
  · rw [if_neg hgv]
    cases parsed with
    | none => exact htriv
    | some lm =>
      show ((if lm.isEmpty = true then ([], used0)
          else files.foldl (match_step gv lm dirs) ([], used0)).1.map
          (fun e => e.2.google_language_code)).Nodup ∧
        (∀ e ∈ (if lm.isEmpty = true then ([], used0)
            else files.foldl (match_step gv lm dirs) ([], used0)).1,
          e.2.google_language_code ∈
            (if lm.isEmpty = true then ([], used0)
              else files.foldl (match_step gv lm dirs) ([], used0)).2) ∧
        used0 <+: (if lm.isEmpty = true then ([], used0)
          else files.foldl (match_step gv lm dirs) ([], used0)).2
      by_cases hlm : lm.isEmpty = true
      · rw [if_pos hlm]
        exact htriv
      · rw [if_neg hlm]
        exact match_fold_invariant gv lm dirs files [] used0
          (by simp) (by intro e he; cases he)

/-! ### C7 — idempotence of the generation pipeline -/

/-- Processing one entry touches the filesystem only at that entry's
key. -/
lemma process_entry_local (env : GenEnv) (fs : FS) (k t p : String) (hp : p ≠ k) :
    (process_entry env fs k t).fs.wav p = fs.wav p ∧
    (process_entry env fs k t).fs.ogg p = fs.ogg p := by
  have hbeq : (p == k) = false := beq_eq_false_iff_ne.mpr hp
  simp only [process_entry, ogg_step]
  split_ifs <;> simp [fs_set_wav, fs_set_ogg, hbeq, hp]

/-- The entry loop touches the filesystem only at the keys of its
entries. -/
lemma run_entries_local (env : GenEnv) :
    ∀ (entries : List (String × String)) (init : RunState) (p : String),
      p ∉ entries.map Prod.fst →
      (run_entries env init entries).fs.wav p = init.fs.wav p ∧
      (run_entries env init entries).fs.ogg p = init.fs.ogg p := by
  intro entries
  induction entries with
  | nil =>
    intro init p _
    exact ⟨rfl, rfl⟩
  | cons e rest ih =>
    intro init p hp
    rw [List.map_cons, List.mem_cons, not_or] at hp
    rw [run_entries_cons]
    rcases ih (run_step env init e) p hp.2 with ⟨h1, h2⟩
    rcases process_entry_local env init.fs e.1 e.2 p hp.1 with ⟨h3, h4⟩
    exact ⟨h1.trans h3, h2.trans h4⟩

/-- Stability of a processed entry: if the filesystem agrees, at the
entry's key, with the filesystem left behind by processing that entry
once, then processing the entry again (with `skip_existing = true`)
changes nothing and produces no MADE action. -/
lemma process_entry_stable (env : GenEnv) (hskip : env.skip_existing = true)
    (fs g : FS) (k t : String)
    (hw : g.wav k = (process_entry env fs k t).fs.wav k)
    (ho : g.ogg k = (process_entry env fs k t).fs.ogg k) :
    (process_entry env g k t).fs = g ∧
    (process_entry env g k t).delta.wav_made = 0 ∧
    (process_entry env g k t).delta.ogg_made = 0 := by
  by_cases hb : is_blank t = true
  · rw [process_entry, if_pos hb]
    exact ⟨rfl, rfl, rfl⟩
  · have hb' : is_blank t = false := by
      rw [Bool.not_eq_true] at hb
      exact hb
    cases hfw : fs.wav k <;> cases hbw : env.bucketWav k <;>
      cases hfo : fs.ogg k <;> cases hbo : env.bucketOgg k <;>
      cases hsy : env.synthOk k <;> cases htr : env.transcodeOk k <;>
      cases hhb : env.has_bucket <;>
      simp_all [process_entry, ogg_step, fs_set_wav, fs_set_ogg, zero_stats]

/-- Running the entry loop a second time over the filesystem produced
by a first run (with `skip_existing = true` and distinct keys) changes
no file and produces zero MADE actions: the second run's `wav_made`
and `ogg_made` stay at their initial values. -/
lemma run_entries_stable_again (env : GenEnv) (hskip : env.skip_existing = true) :
    ∀ (entries : List (String × String)), (entries.map Prod.fst).Nodup →
    ∀ (fs : FS) (st st' : Stats) (sc sc' tc tc' : List String),
      (run_entries env ⟨(run_entries env ⟨fs, st, sc, tc⟩ entries).fs, st', sc', tc'⟩
        entries).fs = (run_entries env ⟨fs, st, sc, tc⟩ entries).fs ∧
      (run_entries env ⟨(run_entries env ⟨fs, st, sc, tc⟩ entries).fs, st', sc', tc'⟩
        entries).stats.wav_made = st'.wav_made ∧
      (run_entries env ⟨(run_entries env ⟨fs, st, sc, tc⟩ entries).fs, st', sc', tc'⟩
        entries).stats.ogg_made = st'.ogg_made := by
  intro entries
  induction entries with
  | nil =>
    intro _ fs st st' sc sc' tc tc'
    exact ⟨rfl, rfl, rfl⟩
  | cons e rest ih =>
    intro hnd fs st st' sc sc' tc tc'
    rw [List.map_cons, List.nodup_cons] at hnd
    obtain ⟨hke, hndr⟩ := hnd
    rw [run_entries_cons, run_entries_cons]
    set fs1 := (run_entries env (run_step env ⟨fs, st, sc, tc⟩ e) rest).fs with hfs1
    have hloc := run_entries_local env rest (run_step env ⟨fs, st, sc, tc⟩ e) e.1 hke
    have hstable := process_entry_stable env hskip fs fs1 e.1 e.2 hloc.1 hloc.2
    obtain ⟨hefs, hm1, hm2⟩ := hstable
    have hs2 : run_step env ⟨fs1, st', sc', tc'⟩ e =
        ⟨fs1, stats_add st' (process_entry env fs1 e.1 e.2).delta,
          sc' ++ (process_entry env fs1 e.1 e.2).synth_calls,
          tc' ++ (process_entry env fs1 e.1 e.2).transcode_calls⟩ := by
      simp only [run_step]
      rw [hefs]
    rw [hs2]
    have hih := ih hndr (process_entry env fs e.1 e.2).fs
      (stats_add st (process_entry env fs e.1 e.2).delta)
      (stats_add st' (process_entry env fs1 e.1 e.2).delta)
      (sc ++ (process_entry env fs e.1 e.2).synth_calls)
      (sc' ++ (process_entry env fs1 e.1 e.2).synth_calls)
      (tc ++ (process_entry env fs e.1 e.2).transcode_calls)
      (tc' ++ (process_entry env fs1 e.1 e.2).transcode_calls)
    refine ⟨hih.1, ?_, ?_⟩
    · have h2 := hih.2.1
      have hadd : (stats_add st' (process_entry env fs1 e.1 e.2).delta).wav_made =
          st'.wav_made + (process_entry env fs1 e.1 e.2).delta.wav_made := rfl
      rw [hadd, hm1, Nat.add_zero] at h2
      exact h2
    · have h3 := hih.2.2
      have hadd : (stats_add st' (process_entry env fs1 e.1 e.2).delta).ogg_made =
          st'.ogg_made + (process_entry env fs1 e.1 e.2).delta.ogg_made := rfl
      rw [hadd, hm2, Nat.add_zero] at h3
      exact h3

/-- Claim C7: running the generation pipeline a second time with
identical inputs (same entries, voices, bucket state and collaborator
outcomes) and `skip_existing = true`, starting from the filesystem the
first run produced, changes no file (the final file sets are
identical) and produces zero new MADE actions: whenever the second run
returns stats, its `wav_made` and `ogg_made` are 0.  Distinct entry
keys are assumed, as entries come from a Python dict. -/
theorem c7_idempotence (env : GenEnv) (hskip : env.skip_existing = true)
    (entries : List (String × String)) (hnd : (entries.map Prod.fst).Nodup)
    (voices : List (String × String)) (fs : FS) :
    (generate_audio_for_language (some entries) voices env
      (generate_audio_for_language (some entries) voices env fs).fs).fs =
      (generate_audio_for_language (some entries) voices env fs).fs ∧
    ∀ s : Stats,
      (generate_audio_for_language (some entries) voices env
        (generate_audio_for_language (some entries) voices env fs).fs).stats = some s →
      s.wav_made = 0 ∧ s.ogg_made = 0 := by
  by_cases hne : entries.isEmpty = true
  · constructor
    · simp [generate_audio_for_language, hne]
    · intro s hs
      simp [generate_audio_for_language, hne] at hs
  · by_cases hv : voices.isEmpty = true
    · constructor
      · simp [generate_audio_for_language, hne, hv]
      · intro s hs
        simp [generate_audio_for_language, hne, hv] at hs
        rw [← hs]
        exact ⟨rfl, rfl⟩
    · have h := run_entries_stable_again env hskip entries hnd fs
        { zero_stats with total_entries := entries.length }
        { zero_stats with total_entries := entries.length } [] [] [] []
      have hgen : ∀ g : FS, generate_audio_for_language (some entries) voices env g =
          ⟨(run_entries env ⟨g, { zero_stats with total_entries := entries.length }, [], []⟩
              entries).fs,
            some (run_entries env ⟨g, { zero_stats with total_entries := entries.length },
              [], []⟩ entries).stats,
            (run_entries env ⟨g, { zero_stats with total_entries := entries.length },
              [], []⟩ entries).synth_calls,
            (run_entries env ⟨g, { zero_stats with total_entries := entries.length },
              [], []⟩ entries).transcode_calls⟩ := by
        intro g
        simp only [generate_audio_for_language, hne, hv, Bool.false_eq_true, if_false]
      simp only [hgen]
      constructor
      · exact h.1
      · intro s hs
        have hs' := Option.some.inj hs
        rw [← hs']
        exact ⟨h.2.1, h.2.2⟩

/-- Witness for C7: a concrete two-entry unit run twice. -/
theorem c7_idempotence_witness :
    (generate_audio_for_language (some [("k1", "hello"), ("k2", "world")])
      [("af-ZA-Standard-A", "female")] envOk
      (generate_audio_for_language (some [("k1", "hello"), ("k2", "world")])
        [("af-ZA-Standard-A", "female")] envOk fsEmpty).fs).fs =
      (generate_audio_for_language (some [("k1", "hello"), ("k2", "world")])
        [("af-ZA-Standard-A", "female")] envOk fsEmpty).fs ∧
    ∀ s : Stats,
      (generate_audio_for_language (some [("k1", "hello"), ("k2", "world")])
        [("af-ZA-Standard-A", "female")] envOk
        (generate_audio_for_language (some [("k1", "hello"), ("k2", "world")])
          [("af-ZA-Standard-A", "female")] envOk fsEmpty).fs).stats = some s →
      s.wav_made = 0 ∧ s.ogg_made = 0 :=
  c7_idempotence envOk rfl [("k1", "hello"), ("k2", "world")] (by decide)
    [("af-ZA-Standard-A", "female")] fsEmpty
